import Mathlib

/-!
Shallow embedding of `constructions/common/random.go`: a deterministic,
seed-keyed pseudorandom generator (`RandomSource`) deriving subkeys,
keystreams, cached shuffles/matrices, and exact-sum integer sequences.

Modelling conventions:
* Bytes and Go `int` values are modelled as `ℕ`.  All arithmetic performed by
  the sampler stays in the non-negative range (weights are bytes, the target
  sum is non-negative in every claim), where Go's truncated `/` and `%`
  coincide with `Nat` division and modulus.
* The AES block operation is an abstract parameter
  `enc : key → block → byteIndex → byteValue` (the spec scopes the cipher out
  as an external collaborator supplying 16-byte-block encryption); the output
  block is `(List.range 16).map (enc key src)`, which is 16 bytes long by
  construction, exactly as `cipher.Block.Encrypt` always writes one block.
* Go runtime panics (nil-cipher dereference after the discarded
  `aes.NewCipher` error, `Encrypt` input-not-full-block, slice index out of
  range, `cipher.NewCTR` IV-length check, integer division by zero) are
  modelled as `none` / dedicated `DResult` panic constructors.
* `encoding.GenerateShuffle` and `matrix.GenerateRandom` are external
  consumers of the byte stream; they are abstract parameters `gen` / `genM`.
* The unbounded rejection loop in `Dirichlet` is given explicit fuel; running
  out of fuel is a distinguished outcome, so every theorem about a returned
  value is a partial-correctness statement about the actual loop.
-/

/-- Abstract 16-byte block cipher: key, source block, output byte index. -/
abbrev BlockCipher := List ℕ → List ℕ → ℕ → ℕ

/-- One block-encryption call: `cipher.Block.Encrypt` writes exactly 16 bytes. -/
def encBlock (enc : BlockCipher) (key src : List ℕ) : List ℕ :=
  (List.range 16).map (enc key src)

/-- The XOR loop `for i, c := range []byte(rs.Name) { subKey[i] ^= c }`,
restricted to the in-bounds case (the out-of-bounds panic is handled by
`subKey`): bytes beyond the name's length are left unmodified. -/
def xorName : List ℕ → List ℕ → List ℕ
  | block, [] => block
  | [], _ => []
  | b :: bs, c :: cs => (b ^^^ c) :: xorName bs cs

/-- `subKey`: encrypt the label under the seed, XOR the name in positionally,
encrypt again.  The guard collects the three Go panic sites on this path:
`aes.NewCipher` accepts only 16/24/32-byte keys and its error is discarded
(`c, _ :=`), so other seed lengths leave `c` nil and `c.Encrypt` panics;
`c.Encrypt(subKey, label)` panics when `len(label) < 16` (input not full
block, longer labels are read only up to 16 bytes); the XOR loop indexes
`subKey[i]` for `i ≥ 16` when the name is longer than 16 bytes. -/
def subKey (enc : BlockCipher) (seed name label : List ℕ) : Option (List ℕ) :=
  if (seed.length = 16 ∨ seed.length = 24 ∨ seed.length = 32)
      ∧ 16 ≤ label.length ∧ name.length ≤ 16 then
    some (encBlock enc seed (xorName (encBlock enc seed (label.take 16)) name))
  else
    none

/-- Big-endian value of a byte string. -/
def natOfBytes (bs : List ℕ) : ℕ :=
  bs.foldl (fun a b => a * 256 + b) 0

/-- 16-byte big-endian encoding of `n % 256^16`. -/
def bytesOfNat (n : ℕ) : List ℕ :=
  (List.range 16).map (fun i => n / 256 ^ (15 - i) % 256)

/-- The `k`-th CTR counter block: the IV incremented `k` times (big-endian,
wrapping at 2^128), as `crypto/cipher`'s CTR mode does. -/
def counterBlock (iv : List ℕ) (k : ℕ) : List ℕ :=
  bytesOfNat ((natOfBytes iv + k) % 256 ^ 16)

/-- Byte `i` of the CTR keystream (encryption of the all-zero source:
`devNull`): byte `i % 16` of the encryption of counter block `i / 16`. -/
def ctrKeystream (enc : BlockCipher) (key iv : List ℕ) (i : ℕ) : ℕ :=
  enc key (counterBlock iv (i / 16)) (i % 16)

/-- `Stream`: derive the subkey for the label, then run CTR mode keyed by the
subkey with the raw (unpadded) label as IV.  `cipher.NewCTR` panics unless
`len(iv)` equals the 16-byte block size. -/
def RandomSource.Stream (enc : BlockCipher) (seed name label : List ℕ) : Option (ℕ → ℕ) :=
  match subKey enc seed name label with
  | none => none
  | some sk =>
    if label.length = 16 then some (ctrKeystream enc sk label) else none

/-- The generator object: name, seed, and the two per-label caches
(association lists standing for the Go maps; entries are only ever inserted
at fresh keys, so cons-with-first-match-lookup is exact). -/
structure RandomSource (α β : Type) where
  name : List ℕ
  seed : List ℕ
  encodingCache : List (List ℕ × α)
  matrixCache : List (List ℕ × β)
deriving DecidableEq

/-- `NewRandomSource`: empty caches. -/
def NewRandomSource {α β : Type} (name seed : List ℕ) : RandomSource α β :=
  ⟨name, seed, [], []⟩

/-- `key := [16]byte{}; copy(key[:], label)`: the label truncated/zero-padded
to exactly 16 bytes, used as the cache key. -/
def toKey (label : List ℕ) : List ℕ :=
  label.take 16 ++ List.replicate (16 - label.length) 0

/-- First-match lookup in a cache. -/
def assocFind {γ : Type} : List (List ℕ × γ) → List ℕ → Option γ
  | [], _ => none
  | (k, v) :: rest, key => if k = key then some v else assocFind rest key

/-- Result of a cached generator call: the value produced (`none` models a
panic), the updated generator state, and the number of fresh stream
derivations performed (instrumentation for the cache-consistency claims). -/
structure OpResult (α β γ : Type) where
  value : Option γ
  state : RandomSource α β
  draws : ℕ
deriving DecidableEq

/-- `Shuffle`: look the truncated label up in the encoding cache; on a hit
return the stored shuffle, on a miss generate one from the label's stream
(`encoding.GenerateShuffle`, the abstract `gen`), store it and return it. -/
def RandomSource.Shuffle {α β : Type} (enc : BlockCipher) (gen : (ℕ → ℕ) → α)
    (rs : RandomSource α β) (label : List ℕ) : OpResult α β α :=
  match assocFind rs.encodingCache (toKey label) with
  | some v => ⟨some v, rs, 0⟩
  | none =>
    match RandomSource.Stream enc rs.seed rs.name label with
    | none => ⟨none, rs, 1⟩
    | some s =>
      ⟨some (gen s),
       ⟨rs.name, rs.seed, (toKey label, gen s) :: rs.encodingCache,
        rs.matrixCache⟩, 1⟩

/-- `Matrix`: same caching discipline over the matrix cache; on a miss the
stream and the requested `size` are fed to `matrix.GenerateRandom` (the
abstract `genM`).  The cache key ignores `size`. -/
def RandomSource.Matrix {α β : Type} (enc : BlockCipher)
    (genM : (ℕ → ℕ) → ℕ → β) (rs : RandomSource α β) (label : List ℕ)
    (size : ℕ) : OpResult α β β :=
  match assocFind rs.matrixCache (toKey label) with
  | some v => ⟨some v, rs, 0⟩
  | none =>
    match RandomSource.Stream enc rs.seed rs.name label with
    | none => ⟨none, rs, 1⟩
    | some s =>
      ⟨some (genM s size),
       ⟨rs.name, rs.seed, rs.encodingCache,
        (toKey label, genM s size) :: rs.matrixCache⟩, 1⟩

/-- Outcome of the Dirichlet sampler. -/
inductive DResult
  /-- the sampler returned this sequence -/
  | ok (out : List ℕ)
  /-- the explicit `panic` for zero variables with non-zero sum -/
  | panicZeroLength
  /-- a panic raised while deriving the label's stream -/
  | panicStream
  /-- the unguarded `% candSum` / `/ candSum` with `candSum == 0` -/
  | panicDivByZero
  /-- the rejection loop's fuel ran out (model artifact for the
  unbounded-but-almost-surely-terminating loop) -/
  | outOfFuel
deriving DecidableEq

/-- One `guess()`: read `len` fresh bytes from the stream at offset `off` as
un-normalized weights, then scale each by `tgt / candSum` with
round-half-up on the remainder.  When `candSum = 0` and the scaling loop has
at least one iteration, `out[pos] % candSum` divides by zero and panics. -/
def guess (s : ℕ → ℕ) (off len tgt : ℕ) : Option (List ℕ) :=
  let buff := (List.range len).map (fun i => s (off + i))
  let candSum := buff.sum
  if candSum = 0 ∧ len ≠ 0 then none
  else
    some (buff.map (fun b =>
      if b * tgt % candSum ≥ candSum / 2
      then b * tgt / candSum + 1
      else b * tgt / candSum))

/-- The rejection loop: guess, recompute the candidate sum, and retry on a
fresh window of stream bytes until it equals the target. -/
def dirichletLoop (s : ℕ → ℕ) (len tgt : ℕ) : ℕ → ℕ → DResult
  | _, 0 => .outOfFuel
  | off, fuel + 1 =>
    match guess s off len tgt with
    | none => .panicDivByZero
    | some out =>
      if out.sum = tgt then .ok out else dirichletLoop s len tgt (off + len) fuel

/-- The sampler's loop given the label's keystream.  `candSum` starts at `0`,
so with `tgt = 0` the `for candSum != sum` loop body never runs and the
freshly allocated all-zero slice is returned. -/
def dirichletCore (s : ℕ → ℕ) (len tgt fuel : ℕ) : DResult :=
  if tgt = 0 then .ok (List.replicate len 0) else dirichletLoop s len tgt 0 fuel

/-- `Dirichlet`: panic when `length == 0 && sum != 0`; otherwise derive the
label's stream (before the loop, so a stream panic fires even when the loop
would not run) and run the rejection loop. -/
def RandomSource.Dirichlet {α β : Type} (enc : BlockCipher)
    (rs : RandomSource α β) (label : List ℕ) (len tgt fuel : ℕ) : DResult :=
  if len = 0 ∧ tgt ≠ 0 then .panicZeroLength
  else
    match RandomSource.Stream enc rs.seed rs.name label with
    | none => .panicStream
    | some s => dirichletCore s len tgt fuel

/-- Tail of the in-place prefix-sum loop `out[i] += out[i-1]`, carrying the
previous (already summed) entry. -/
def prefixAux (acc : ℕ) : List ℕ → List ℕ
  | [] => []
  | y :: ys => (acc + y) :: prefixAux (acc + y) ys

/-- In-place running prefix sum of a sequence. -/
def prefixSums : List ℕ → List ℕ
  | [] => []
  | x :: xs => x :: prefixAux x xs

/-- `Monotone`: sample a Dirichlet sequence, then replace it in place by its
running prefix sum; panics propagate. -/
def RandomSource.Monotone {α β : Type} (enc : BlockCipher)
    (rs : RandomSource α β) (label : List ℕ) (len maxv fuel : ℕ) : DResult :=
  match RandomSource.Dirichlet enc rs label len maxv fuel with
  | .ok out => .ok (prefixSums out)
  | r => r

/-! ### Concrete instantiations used by witnesses and counterexamples -/

/-- A stand-in block cipher whose every output byte is `2` (so every derived
keystream byte is `2`). -/
def encTwo : BlockCipher := fun _ _ _ => 2

/-- A stand-in block cipher whose every output byte is `0` (so every derived
keystream byte is `0`). -/
def encZero : BlockCipher := fun _ _ _ => 0

/-- A stand-in `encoding.GenerateShuffle`: the first stream byte. -/
def genVal : (ℕ → ℕ) → ℕ := fun s => s 0

/-- A stand-in `matrix.GenerateRandom` that records the requested size (the
real one returns a matrix of dimension `size`, so its value depends on
`size`). -/
def genSize : (ℕ → ℕ) → ℕ → ℕ := fun _ size => size

/-- A 16-byte all-zero seed. -/
def seed16 : List ℕ := List.replicate 16 0

/-- A 16-byte all-zero label. -/
def lab16 : List ℕ := List.replicate 16 0

/-- A fresh generator with empty name and all-zero 16-byte seed. -/
def rsZero : RandomSource ℕ ℕ := NewRandomSource [] seed16

/-- A 16-byte label of sevens. -/
def lab7 : List ℕ := List.replicate 16 7

/-- A generator whose caches already hold values for `toKey [97]`. -/
def rsCached : RandomSource ℕ ℕ := ⟨[], seed16, [(toKey [97], 7)], [(toKey [97], 9)]⟩

/-- A generator whose caches already hold values for the key `lab7`. -/
def rsCached2 : RandomSource ℕ ℕ := ⟨[], seed16, [(lab7, 7)], [(lab7, 9)]⟩

/-! ### Properties of the sampler -/

theorem guess_length {s : ℕ → ℕ} {off len tgt : ℕ} {out : List ℕ}
    (h : guess s off len tgt = some out) : out.length = len := by
  simp only [guess] at h
  split at h
  · cases h
  · cases h
    simp

theorem dirichletLoop_ok {s : ℕ → ℕ} {len tgt : ℕ} :
    ∀ {fuel off : ℕ} {out : List ℕ},
      dirichletLoop s len tgt off fuel = .ok out →
      out.length = len ∧ out.sum = tgt := by
  intro fuel
  induction fuel with
  | zero => intro off out h; simp [dirichletLoop] at h
  | succ n ih =>
    intro off out h
    simp only [dirichletLoop] at h
    cases hg : guess s off len tgt with
    | none => rw [hg] at h; cases h
    | some o =>
      rw [hg] at h
      replace h : (if o.sum = tgt then DResult.ok o
          else dirichletLoop s len tgt (off + len) n) = DResult.ok out := h
      by_cases hsum : o.sum = tgt
      · rw [if_pos hsum] at h
        cases h
        exact ⟨guess_length hg, hsum⟩
      · rw [if_neg hsum] at h
        exact ih h

theorem dirichletLoop_ne_panicZeroLength {s : ℕ → ℕ} {len tgt : ℕ} :
    ∀ {fuel off : ℕ}, dirichletLoop s len tgt off fuel ≠ .panicZeroLength := by
  intro fuel
  induction fuel with
  | zero => intro off h; simp [dirichletLoop] at h
  | succ n ih =>
    intro off h
    simp only [dirichletLoop] at h
    cases hg : guess s off len tgt with
    | none => rw [hg] at h; cases h
    | some o =>
      rw [hg] at h
      replace h : (if o.sum = tgt then DResult.ok o
          else dirichletLoop s len tgt (off + len) n) = DResult.panicZeroLength := h
      by_cases hsum : o.sum = tgt
      · rw [if_pos hsum] at h; cases h
      · rw [if_neg hsum] at h; exact ih h

theorem dirichletCore_ok {s : ℕ → ℕ} {len tgt fuel : ℕ} {out : List ℕ}
    (h : dirichletCore s len tgt fuel = .ok out) :
    out.length = len ∧ out.sum = tgt := by
  unfold dirichletCore at h
  split at h
  · cases h
    refine ⟨by simp, ?_⟩
    simp_all
  · exact dirichletLoop_ok h

theorem dirichletCore_ne_panicZeroLength {s : ℕ → ℕ} {len tgt fuel : ℕ} :
    dirichletCore s len tgt fuel ≠ .panicZeroLength := by
  unfold dirichletCore
  split
  · intro h; cases h
  · exact dirichletLoop_ne_panicZeroLength

theorem dirichlet_ok {α β : Type} {enc : BlockCipher} {rs : RandomSource α β}
    {label : List ℕ} {len tgt fuel : ℕ} {out : List ℕ}
    (h : RandomSource.Dirichlet enc rs label len tgt fuel = .ok out) :
    out.length = len ∧ out.sum = tgt := by
  unfold RandomSource.Dirichlet at h
  split at h
  · cases h
  · rcases hs : RandomSource.Stream enc rs.seed rs.name label with _ | s <;>
      rw [hs] at h
    · cases h
    · exact dirichletCore_ok h

/-- Claim C1: for every label, `length > 0` and `targetSum ≥ 0`, when the
Sum-Constrained Sampler returns, its output has exactly `length` entries,
each non-negative, summing exactly to `targetSum`. -/
theorem c1_sum_exact (α β : Type) (enc : BlockCipher) (rs : RandomSource α β)
    (label : List ℕ) (len tgt fuel : ℕ) (out : List ℕ)
    (_hlen : 0 < len)
    (h : RandomSource.Dirichlet enc rs label len tgt fuel = .ok out) :
    out.length = len ∧ (∀ x ∈ out, 0 ≤ x) ∧ out.sum = tgt :=
  ⟨(dirichlet_ok h).1, fun x _ => Nat.zero_le x, (dirichlet_ok h).2⟩

/-- Witness for C1 at a concrete run: stream bytes all `2`, one variable,
target `5`, first guess already exact with output `[5]`. -/
theorem c1_sum_exact_witness :
    ([5] : List ℕ).length = 1 ∧ (∀ x ∈ ([5] : List ℕ), 0 ≤ x) ∧
      ([5] : List ℕ).sum = 5 :=
  c1_sum_exact ℕ ℕ encTwo rsZero lab16 1 5 1 [5] (by decide) (by decide)

/-- Counterexample to claim C2 as stated: with `length == 0` and
`targetSum == 0` but a 1-byte label, the sampler does not return an empty
sequence — it panics while deriving the label's stream (the label is
encrypted as a block and read as a CTR IV with no padding), a fatal failure
outside the claimed `length == 0 && targetSum != 0` condition. -/
theorem c2_counterexample :
    RandomSource.Dirichlet encTwo rsZero [97] 0 0 1 = DResult.panicStream ∧
    DResult.panicStream ≠ DResult.ok [] := by
  decide

/-- Claim C2 (amended): the explicit zero-variables panic fires iff
`length == 0` and `targetSum != 0`; with `length == 0, targetSum == 0` the
sampler returns the empty sequence provided the label's stream derivation
succeeds, and panics in stream derivation otherwise; in addition the scaling
step can panic with a division by zero (an all-zero keystream makes the
candidate sum zero). -/
theorem c2_zero_length_contract (α β : Type) (enc : BlockCipher)
    (rs : RandomSource α β) (label : List ℕ) (len tgt fuel : ℕ) :
    (RandomSource.Dirichlet enc rs label len tgt fuel = .panicZeroLength ↔
      len = 0 ∧ tgt ≠ 0)
    ∧ ((RandomSource.Stream enc rs.seed rs.name label).isSome →
        RandomSource.Dirichlet enc rs label 0 0 fuel = .ok [])
    ∧ (RandomSource.Stream enc rs.seed rs.name label = none →
        ¬(len = 0 ∧ tgt ≠ 0) →
        RandomSource.Dirichlet enc rs label len tgt fuel = .panicStream)
    ∧ RandomSource.Dirichlet encZero rsZero lab16 1 1 1 = .panicDivByZero := by
  refine ⟨⟨?_, ?_⟩, ?_, ?_, by decide⟩
  · intro h
    unfold RandomSource.Dirichlet at h
    split at h
    · assumption
    · cases hs : RandomSource.Stream enc rs.seed rs.name label with
      | none => rw [hs] at h; cases h
      | some s => rw [hs] at h; exact absurd h dirichletCore_ne_panicZeroLength
  · intro ⟨h1, h2⟩
    unfold RandomSource.Dirichlet
    rw [if_pos ⟨h1, h2⟩]
  · intro h
    obtain ⟨s, hs⟩ := Option.isSome_iff_exists.mp h
    unfold RandomSource.Dirichlet
    rw [if_neg (by simp), hs]
    show dirichletCore s 0 0 fuel = DResult.ok []
    unfold dirichletCore
    rw [if_pos rfl]
    simp
  · intro hs hcond
    unfold RandomSource.Dirichlet
    rw [if_neg hcond, hs]

/-- Witness for C2's amended contract at concrete inputs. -/
theorem c2_zero_length_contract_witness :
    (RandomSource.Dirichlet encTwo rsZero lab16 0 5 1 = .panicZeroLength ↔
      (0 : ℕ) = 0 ∧ (5 : ℕ) ≠ 0)
    ∧ RandomSource.Dirichlet encTwo rsZero lab16 0 0 1 = .ok []
    ∧ RandomSource.Dirichlet encTwo rsZero [97] 3 7 1 = .panicStream := by
  refine ⟨(c2_zero_length_contract ℕ ℕ encTwo rsZero lab16 0 5 1).1,
    (c2_zero_length_contract ℕ ℕ encTwo rsZero lab16 0 0 1).2.1 (by decide),
    (c2_zero_length_contract ℕ ℕ encTwo rsZero [97] 3 7 1).2.2.1 (by rfl)
      (by decide)⟩

/-! ### Prefix sums and the monotone generator -/

theorem prefixAux_chain (acc : ℕ) (l : List ℕ) :
    List.Chain' (· ≤ ·) (acc :: prefixAux acc l) := by
  induction l generalizing acc with
  | nil => simp [prefixAux]
  | cons y ys ih =>
    rw [prefixAux, List.chain'_cons]
    exact ⟨Nat.le_add_right acc y, ih (acc + y)⟩

theorem prefixAux_getLast (acc : ℕ) (l : List ℕ) :
    (acc :: prefixAux acc l).getLast? = some (acc + l.sum) := by
  induction l generalizing acc with
  | nil => simp [prefixAux]
  | cons y ys ih =>
    rw [prefixAux, List.getLast?_cons_cons, ih (acc + y)]
    simp [Nat.add_assoc]

theorem prefixSums_chain (l : List ℕ) : List.Chain' (· ≤ ·) (prefixSums l) := by
  cases l with
  | nil => simp [prefixSums]
  | cons x xs => exact prefixAux_chain x xs

theorem prefixSums_getLast {l : List ℕ} (h : l ≠ []) :
    (prefixSums l).getLast? = some l.sum := by
  cases l with
  | nil => exact absurd rfl h
  | cons x xs => rw [prefixSums, prefixAux_getLast]; simp

/-- Claim C3: for every label, `length > 0` and `max ≥ 0`, the Monotone
Sequence Generator's output is the running prefix sum of the Sum-Constrained
Sampler's output for the same `(label, length, max)`; consequently it is
non-decreasing and its final element equals `max`. -/
theorem c3_monotone (α β : Type) (enc : BlockCipher) (rs : RandomSource α β)
    (label : List ℕ) (len maxv fuel : ℕ) (out : List ℕ)
    (hlen : 0 < len)
    (h : RandomSource.Dirichlet enc rs label len maxv fuel = .ok out) :
    RandomSource.Monotone enc rs label len maxv fuel = .ok (prefixSums out)
    ∧ List.Chain' (· ≤ ·) (prefixSums out)
    ∧ (prefixSums out).getLast? = some maxv := by
  obtain ⟨hl, hs⟩ := dirichlet_ok h
  have hne : out ≠ [] := by
    intro hcon
    rw [hcon] at hl
    simp at hl
    omega
  refine ⟨?_, prefixSums_chain out, ?_⟩
  · unfold RandomSource.Monotone
    rw [h]
  · rw [prefixSums_getLast hne, hs]

/-- Witness for C3 at a concrete run: stream bytes all `2`, two variables,
target `4`, sampler output `[2, 2]`, monotone output `[2, 4]`. -/
theorem c3_monotone_witness :
    RandomSource.Monotone encTwo rsZero lab16 2 4 1 = .ok (prefixSums [2, 2])
    ∧ List.Chain' (· ≤ ·) (prefixSums [2, 2])
    ∧ (prefixSums [2, 2]).getLast? = some 4 :=
  c3_monotone ℕ ℕ encTwo rsZero lab16 2 4 1 [2, 2] (by decide) (by decide)

/-! ### The unguarded division in the scaling step -/

theorem guess_eq_none {s : ℕ → ℕ} {off len tgt : ℕ}
    (hlen : len ≠ 0)
    (hz : ((List.range len).map (fun i => s (off + i))).sum = 0) :
    guess s off len tgt = none := by
  simp only [guess]
  rw [if_pos ⟨hz, hlen⟩]

theorem guess_ne_none {s : ℕ → ℕ} {off len tgt : ℕ}
    (hnz : ((List.range len).map (fun i => s (off + i))).sum ≠ 0) :
    guess s off len tgt ≠ none := by
  simp only [guess]
  rw [if_neg (fun hc => hnz hc.1)]
  exact Option.some_ne_none _

theorem window_sum_ne_zero {s : ℕ → ℕ} {off len : ℕ} {i : ℕ}
    (hi : i < len) (hne : s (off + i) ≠ 0) :
    ((List.range len).map (fun i => s (off + i))).sum ≠ 0 := by
  intro hz
  exact hne (List.sum_eq_zero_iff.mp hz (s (off + i))
    (List.mem_map_of_mem _ (List.mem_range.mpr hi)))

theorem dirichletLoop_ne_panicDivByZero {s : ℕ → ℕ} {len tgt : ℕ}
    (hw : ∀ k, ∃ i, i < len ∧ s (k * len + i) ≠ 0) :
    ∀ (fuel k : ℕ), dirichletLoop s len tgt (k * len) fuel ≠ .panicDivByZero := by
  intro fuel
  induction fuel with
  | zero => intro k h; simp [dirichletLoop] at h
  | succ n ih =>
    intro k h
    simp only [dirichletLoop] at h
    obtain ⟨i, hi, hne⟩ := hw k
    cases hg : guess s (k * len) len tgt with
    | none => exact guess_ne_none (window_sum_ne_zero hi hne) hg
    | some o =>
      rw [hg] at h
      replace h : (if o.sum = tgt then DResult.ok o
          else dirichletLoop s len tgt (k * len + len) n) = DResult.panicDivByZero := h
      by_cases hsum : o.sum = tgt
      · rw [if_pos hsum] at h; cases h
      · rw [if_neg hsum] at h
        rw [← Nat.succ_mul] at h
        exact ih (k + 1) h

/-- Claim C10: with `length > 0` the scaling step divides and takes the
remainder by the candidate weight sum without a zero guard: when all `length`
drawn bytes are zero the sampler panics with a division by zero instead of
redrawing, and the division is safe exactly under the hypothesis that every
drawn window of weights contains a nonzero byte. -/
theorem c10_division_by_zero :
    (∀ (s : ℕ → ℕ) (len tgt fuel : ℕ), 0 < len → tgt ≠ 0 → 0 < fuel →
        (∀ i, i < len → s i = 0) →
        dirichletCore s len tgt fuel = .panicDivByZero)
    ∧ (∀ (s : ℕ → ℕ) (len tgt fuel : ℕ),
        (∀ k, ∃ i, i < len ∧ s (k * len + i) ≠ 0) →
        dirichletCore s len tgt fuel ≠ .panicDivByZero) := by
  constructor
  · intro s len tgt fuel hlen htgt hfuel hz
    unfold dirichletCore
    rw [if_neg htgt]
    cases fuel with
    | zero => exact absurd hfuel (by simp)
    | succ n =>
      have hzero : ((List.range len).map (fun i => s (0 + i))).sum = 0 := by
        apply List.sum_eq_zero
        intro x hx
        obtain ⟨i, hi, rfl⟩ := List.mem_map.mp hx
        rw [Nat.zero_add]
        exact hz i (List.mem_range.mp hi)
      simp only [dirichletLoop]
      rw [guess_eq_none (Nat.pos_iff_ne_zero.mp hlen) hzero]
  · intro s len tgt fuel hw h
    unfold dirichletCore at h
    split at h
    · cases h
    · have := @dirichletLoop_ne_panicDivByZero s len tgt hw fuel 0
      rw [Nat.zero_mul] at this
      exact this h

/-- Witness for C10: the all-zero stream panics with division by zero; a
stream of bytes `2` never does. -/
theorem c10_division_by_zero_witness :
    dirichletCore (fun _ => 0) 1 1 1 = DResult.panicDivByZero ∧
    dirichletCore (fun _ => 2) 1 5 1 ≠ DResult.panicDivByZero :=
  ⟨c10_division_by_zero.1 (fun _ => 0) 1 1 1 (by decide) (by decide) (by decide)
      (fun _ _ => rfl),
   c10_division_by_zero.2 (fun _ => 2) 1 5 1
      (fun k => ⟨0, Nat.zero_lt_one, by simp⟩)⟩

/-! ### Subkey derivation and the keystream source -/

theorem subKey_isSome_iff (enc : BlockCipher) (seed name label : List ℕ) :
    (subKey enc seed name label).isSome = true ↔
      (seed.length = 16 ∨ seed.length = 24 ∨ seed.length = 32)
      ∧ 16 ≤ label.length ∧ name.length ≤ 16 := by
  unfold subKey
  split <;> simp_all

theorem stream_isSome_iff (enc : BlockCipher) (seed name label : List ℕ) :
    (RandomSource.Stream enc seed name label).isSome = true ↔
      (seed.length = 16 ∨ seed.length = 24 ∨ seed.length = 32)
      ∧ name.length ≤ 16 ∧ label.length = 16 := by
  have hsub := subKey_isSome_iff enc seed name label
  unfold RandomSource.Stream
  cases hk : subKey enc seed name label with
  | none =>
    rw [hk] at hsub
    show (none : Option (ℕ → ℕ)).isSome = true ↔ _
    simp only [Option.isSome_none] at hsub ⊢
    constructor
    · intro h; cases h
    · intro ⟨h1, h2, h3⟩
      exact absurd (hsub.mpr ⟨h1, by omega, h2⟩) (by simp)
  | some sk =>
    rw [hk] at hsub
    show (if label.length = 16 then some (ctrKeystream enc sk label)
        else none).isSome = true ↔ _
    simp only [Option.isSome_some, true_iff] at hsub
    obtain ⟨h1, _h2, h3⟩ := hsub
    by_cases hl : label.length = 16
    · rw [if_pos hl]
      simp [h1, h3, hl]
    · rw [if_neg hl]
      simp [hl]

theorem xorName_getD_of_le : ∀ (block name : List ℕ) (i : ℕ),
    name.length ≤ i → (xorName block name).getD i 0 = block.getD i 0 := by
  intro block name
  induction name generalizing block with
  | nil => intro i _; cases block <;> rfl
  | cons c cs ih =>
    intro i hi
    cases block with
    | nil => rfl
    | cons b bs =>
      cases i with
      | zero => simp at hi
      | succ j =>
        show ((b ^^^ c) :: xorName bs cs).getD (j + 1) 0 = (b :: bs).getD (j + 1) 0
        simp only [List.getD_cons_succ]
        exact ih bs j (by simpa using hi)

theorem xorName_getD_of_lt : ∀ (block name : List ℕ) (i : ℕ),
    i < name.length → i < block.length →
    (xorName block name).getD i 0 = block.getD i 0 ^^^ name.getD i 0 := by
  intro block name
  induction name generalizing block with
  | nil => intro i hi _; simp at hi
  | cons c cs ih =>
    intro i hi hb
    cases block with
    | nil => simp at hb
    | cons b bs =>
      cases i with
      | zero => rfl
      | succ j =>
        show ((b ^^^ c) :: xorName bs cs).getD (j + 1) 0 = _
        simp only [List.getD_cons_succ]
        exact ih bs j (by simpa using hi) (by simpa using hb)

/-- Counterexample to claim C5 as stated: a 17-byte name is not truncated to
its first 16 bytes — the XOR loop indexes past the 16-byte block and panics,
so the derived subkey differs from the one derived with the truncated name. -/
theorem c5_counterexample :
    subKey encTwo seed16 (List.replicate 17 1) lab16 ≠
      subKey encTwo seed16 ((List.replicate 17 1).take 16) lab16 := by
  decide

/-- Claim C5 (amended): a name longer than 16 bytes makes subkey derivation
panic (index out of range) rather than being ignored; for names within 16
bytes the name XOR affects exactly the first `name.length` positions of the
intermediate block — positions at or beyond the name's length are unmodified,
positions below it are XORed positionally. -/
theorem c5_name_truncation (enc : BlockCipher) (seed name label block : List ℕ)
    (i : ℕ) :
    (16 < name.length → subKey enc seed name label = none)
    ∧ (name.length ≤ i → (xorName block name).getD i 0 = block.getD i 0)
    ∧ (i < name.length → i < block.length →
        (xorName block name).getD i 0 = block.getD i 0 ^^^ name.getD i 0) := by
  refine ⟨?_, xorName_getD_of_le block name i, xorName_getD_of_lt block name i⟩
  intro h
  unfold subKey
  rw [if_neg (fun hc => by omega)]

/-- Witness for C5's amended statement at concrete inputs. -/
theorem c5_name_truncation_witness :
    subKey encTwo seed16 (List.replicate 17 1) lab16 = none
    ∧ (xorName (List.replicate 16 2) [1]).getD 5 0 = (List.replicate 16 2).getD 5 0
    ∧ (xorName (List.replicate 16 2) [1]).getD 0 0 =
        (List.replicate 16 2).getD 0 0 ^^^ ([1] : List ℕ).getD 0 0 :=
  ⟨(c5_name_truncation encTwo seed16 (List.replicate 17 1) lab16 [] 0).1 (by decide),
   (c5_name_truncation encTwo seed16 [1] lab16 (List.replicate 16 2) 5).2.1 (by decide),
   (c5_name_truncation encTwo seed16 [1] lab16 (List.replicate 16 2) 0).2.2
     (by decide) (by decide)⟩

/-- Counterexample to claim C6 as stated: the Keystream Source does not
truncate/zero-pad the label — a 1-byte label panics (block encryption of a
short input inside subkey derivation), while the same label zero-padded to
16 bytes succeeds, so the two streams are not equal and short labels do fail. -/
theorem c6_counterexample :
    (RandomSource.Stream encTwo seed16 [] [97]).isSome = false
    ∧ (RandomSource.Stream encTwo seed16 [] (toKey [97])).isSome = true := by
  decide

/-- Claim C6 (amended): the Keystream Source performs no truncation or
padding of the label; it returns a stream exactly when the seed is an
accepted cipher key size, the name is at most 16 bytes, and the label is
exactly 16 bytes — shorter labels panic in the subkey's block encryption,
longer labels panic in the CTR IV-length check. -/
theorem c6_stream_contract (enc : BlockCipher) (seed name label : List ℕ) :
    (RandomSource.Stream enc seed name label).isSome = true ↔
      (seed.length = 16 ∨ seed.length = 24 ∨ seed.length = 32)
      ∧ name.length ≤ 16 ∧ label.length = 16 :=
  stream_isSome_iff enc seed name label

/-- Counterexample to claim C7 as stated: a 24-byte seed is not exactly the
16-byte key size, yet `aes.NewCipher` accepts it (AES-192) and — its error
being discarded anyway — subkey derivation succeeds instead of failing. -/
theorem c7_counterexample :
    (subKey encTwo (List.replicate 24 0) [] lab16).isSome = true := by
  decide

/-- Claim C7 (amended): the `aes.NewCipher` error is discarded, so no
`InvalidKeyLength` error is ever surfaced; subkey derivation succeeds exactly
when the seed length is one of the cipher's accepted key sizes (16, 24 or 32
bytes) and the label/name are within bounds, and for any other seed length it
panics on the nil cipher instead of returning an error. -/
theorem c7_seed_length (enc : BlockCipher) (seed name label : List ℕ) :
    ((subKey enc seed name label).isSome = true ↔
      (seed.length = 16 ∨ seed.length = 24 ∨ seed.length = 32)
      ∧ 16 ≤ label.length ∧ name.length ≤ 16)
    ∧ (¬(seed.length = 16 ∨ seed.length = 24 ∨ seed.length = 32) →
        subKey enc seed name label = none) := by
  refine ⟨subKey_isSome_iff enc seed name label, ?_⟩
  intro h
  unfold subKey
  rw [if_neg (fun hc => h hc.1)]

/-- Witness for C7's amended statement: a 15-byte seed makes subkey
derivation panic. -/
theorem c7_seed_length_witness :
    subKey encTwo (List.replicate 15 0) [] lab16 = none :=
  (c7_seed_length encTwo (List.replicate 15 0) [] lab16).2 (by decide)

/-! ### The cached permutation and matrix generators -/

theorem shuffle_hit {α β : Type} (enc : BlockCipher) (gen : (ℕ → ℕ) → α)
    (rs : RandomSource α β) (label : List ℕ) {v : α}
    (h : assocFind rs.encodingCache (toKey label) = some v) :
    RandomSource.Shuffle enc gen rs label = ⟨some v, rs, 0⟩ := by
  unfold RandomSource.Shuffle
  rw [h]

theorem shuffle_miss_panic {α β : Type} (enc : BlockCipher) (gen : (ℕ → ℕ) → α)
    (rs : RandomSource α β) (label : List ℕ)
    (h1 : assocFind rs.encodingCache (toKey label) = none)
    (h2 : RandomSource.Stream enc rs.seed rs.name label = none) :
    RandomSource.Shuffle enc gen rs label = ⟨none, rs, 1⟩ := by
  unfold RandomSource.Shuffle
  rw [h1, h2]

theorem shuffle_miss_gen {α β : Type} (enc : BlockCipher) (gen : (ℕ → ℕ) → α)
    (rs : RandomSource α β) (label : List ℕ) {s : ℕ → ℕ}
    (h1 : assocFind rs.encodingCache (toKey label) = none)
    (h2 : RandomSource.Stream enc rs.seed rs.name label = some s) :
    RandomSource.Shuffle enc gen rs label =
      ⟨some (gen s),
       ⟨rs.name, rs.seed, (toKey label, gen s) :: rs.encodingCache,
        rs.matrixCache⟩, 1⟩ := by
  unfold RandomSource.Shuffle
  rw [h1, h2]

theorem matrix_hit {α β : Type} (enc : BlockCipher) (genM : (ℕ → ℕ) → ℕ → β)
    (rs : RandomSource α β) (label : List ℕ) (size : ℕ) {w : β}
    (h : assocFind rs.matrixCache (toKey label) = some w) :
    RandomSource.Matrix enc genM rs label size = ⟨some w, rs, 0⟩ := by
  unfold RandomSource.Matrix
  rw [h]

theorem matrix_miss_panic {α β : Type} (enc : BlockCipher)
    (genM : (ℕ → ℕ) → ℕ → β) (rs : RandomSource α β) (label : List ℕ)
    (size : ℕ)
    (h1 : assocFind rs.matrixCache (toKey label) = none)
    (h2 : RandomSource.Stream enc rs.seed rs.name label = none) :
    RandomSource.Matrix enc genM rs label size = ⟨none, rs, 1⟩ := by
  unfold RandomSource.Matrix
  rw [h1, h2]

theorem matrix_miss_gen {α β : Type} (enc : BlockCipher)
    (genM : (ℕ → ℕ) → ℕ → β) (rs : RandomSource α β) (label : List ℕ)
    (size : ℕ) {s : ℕ → ℕ}
    (h1 : assocFind rs.matrixCache (toKey label) = none)
    (h2 : RandomSource.Stream enc rs.seed rs.name label = some s) :
    RandomSource.Matrix enc genM rs label size =
      ⟨some (genM s size),
       ⟨rs.name, rs.seed, rs.encodingCache,
        (toKey label, genM s size) :: rs.matrixCache⟩, 1⟩ := by
  unfold RandomSource.Matrix
  rw [h1, h2]

theorem assocFind_cons_self {γ : Type} (k : List ℕ) (v : γ)
    (rest : List (List ℕ × γ)) : assocFind ((k, v) :: rest) k = some v := by
  unfold assocFind
  rw [if_pos rfl]

/-- Counterexample to claim C4 as stated: two calls to the matrix generator
with the same seed, name, label and size can return different results when
the instances have different histories — the cache is keyed by label only, so
an instance that already served the label at size 8 answers a size-4 request
with the stored size-8 matrix, while a fresh instance generates a size-4 one. -/
theorem c4_counterexample :
    (RandomSource.Matrix encTwo genSize
        (RandomSource.Matrix encTwo genSize rsZero lab16 8).state lab16 4).value
      ≠ (RandomSource.Matrix encTwo genSize rsZero lab16 4).value := by
  decide

/-- Claim C4 (amended): for fixed seed, name, label and size, repeated calls
on the same generator instance return identical results (the cached value is
exactly the one produced on first derivation), and fresh instances with equal
seed and name behave identically; across instances with different call
histories the results can differ (label-only matrix cache, and non-16-byte
labels panic on a miss but return the cached value on a hit). -/
theorem c4_determinism (α β : Type) (enc : BlockCipher) (gen : (ℕ → ℕ) → α)
    (genM : (ℕ → ℕ) → ℕ → β) (rs : RandomSource α β) (label : List ℕ)
    (size : ℕ) :
    (RandomSource.Shuffle enc gen
        (RandomSource.Shuffle enc gen rs label).state label).value
      = (RandomSource.Shuffle enc gen rs label).value
    ∧ (RandomSource.Matrix enc genM
        (RandomSource.Matrix enc genM rs label size).state label size).value
      = (RandomSource.Matrix enc genM rs label size).value := by
  constructor
  · cases h1 : assocFind rs.encodingCache (toKey label) with
    | some v =>
      have e1 := shuffle_hit enc gen rs label h1
      rw [e1]
      show (RandomSource.Shuffle enc gen rs label).value = some v
      rw [e1]
    | none =>
      cases h2 : RandomSource.Stream enc rs.seed rs.name label with
      | none =>
        have e1 := shuffle_miss_panic enc gen rs label h1 h2
        rw [e1]
        show (RandomSource.Shuffle enc gen rs label).value = none
        rw [e1]
      | some s =>
        have e1 := shuffle_miss_gen enc gen rs label h1 h2
        rw [e1]
        show (RandomSource.Shuffle enc gen
          ⟨rs.name, rs.seed, (toKey label, gen s) :: rs.encodingCache,
           rs.matrixCache⟩ label).value = some (gen s)
        rw [shuffle_hit enc gen _ label (assocFind_cons_self _ _ _)]
  · cases h1 : assocFind rs.matrixCache (toKey label) with
    | some w =>
      have e1 := matrix_hit enc genM rs label size h1
      rw [e1]
      show (RandomSource.Matrix enc genM rs label size).value = some w
      rw [e1]
    | none =>
      cases h2 : RandomSource.Stream enc rs.seed rs.name label with
      | none =>
        have e1 := matrix_miss_panic enc genM rs label size h1 h2
        rw [e1]
        show (RandomSource.Matrix enc genM rs label size).value = none
        rw [e1]
      | some s =>
        have e1 := matrix_miss_gen enc genM rs label size h1 h2
        rw [e1]
        show (RandomSource.Matrix enc genM
          ⟨rs.name, rs.seed, rs.encodingCache,
           (toKey label, genM s size) :: rs.matrixCache⟩ label size).value
          = some (genM s size)
        rw [matrix_hit enc genM _ label size (assocFind_cons_self _ _ _)]

/-- Counterexample to claim C8 as stated: the labels `[97]` and its 16-byte
zero-padding agree on their first 16 bytes after padding, yet on a fresh
generator the call with the 1-byte label panics (no permutation is returned
at all) while the padded label's call returns one — the two calls do not
return the same cached permutation. -/
theorem c8_counterexample :
    (RandomSource.Shuffle encTwo genVal rsZero [97]).value = none
    ∧ (RandomSource.Shuffle encTwo genVal rsZero (toKey [97])).value = some 2 := by
  decide

/-- Claim C8 (amended): two labels agreeing on their first 16 bytes (after
zero-padding) share the cache key, so whenever a permutation (or matrix) is
already cached under that key, a call with either label returns that same
cached value; and after a successful first call with an exactly-16-byte
label, a call with any label whose key collides with it returns the same
permutation.  A cache-miss call, however, derives the stream from the full
label and panics unless the label is exactly 16 bytes. -/
theorem c8_label_collision (α β : Type) (enc : BlockCipher)
    (gen : (ℕ → ℕ) → α) (genM : (ℕ → ℕ) → ℕ → β) (rs : RandomSource α β)
    (l1 l2 : List ℕ) (size : ℕ) (v : α) (w : β) :
    (toKey l1 = toKey l2 →
      assocFind rs.encodingCache (toKey l1) = some v →
      (RandomSource.Shuffle enc gen rs l1).value = some v
      ∧ (RandomSource.Shuffle enc gen rs l2).value = some v)
    ∧ (toKey l1 = toKey l2 →
      assocFind rs.matrixCache (toKey l1) = some w →
      (RandomSource.Matrix enc genM rs l1 size).value = some w
      ∧ (RandomSource.Matrix enc genM rs l2 size).value = some w)
    ∧ (l1.length = 16 → toKey l2 = toKey l1 →
      (RandomSource.Shuffle enc gen
          (RandomSource.Shuffle enc gen rs l1).state l2).value
        = (RandomSource.Shuffle enc gen rs l1).value) := by
  refine ⟨?_, ?_, ?_⟩
  · intro hk hf
    constructor
    · rw [shuffle_hit enc gen rs l1 hf]
    · rw [shuffle_hit enc gen rs l2 (by rw [← hk]; exact hf)]
  · intro hk hf
    constructor
    · rw [matrix_hit enc genM rs l1 size hf]
    · rw [matrix_hit enc genM rs l2 size (by rw [← hk]; exact hf)]
  · intro hl1 hk
    cases h1 : assocFind rs.encodingCache (toKey l1) with
    | some v =>
      have e1 := shuffle_hit enc gen rs l1 h1
      rw [e1]
      show (RandomSource.Shuffle enc gen rs l2).value = some v
      rw [shuffle_hit enc gen rs l2 (by rw [hk]; exact h1)]
    | none =>
      cases h2 : RandomSource.Stream enc rs.seed rs.name l1 with
      | some s =>
        have e1 := shuffle_miss_gen enc gen rs l1 h1 h2
        rw [e1]
        show (RandomSource.Shuffle enc gen
          ⟨rs.name, rs.seed, (toKey l1, gen s) :: rs.encodingCache,
           rs.matrixCache⟩ l2).value = some (gen s)
        rw [shuffle_hit enc gen _ l2 (by rw [hk]; exact assocFind_cons_self _ _ _)]
      | none =>
        have e1 := shuffle_miss_panic enc gen rs l1 h1 h2
        rw [e1]
        show (RandomSource.Shuffle enc gen rs l2).value = none
        have hno : ¬((rs.seed.length = 16 ∨ rs.seed.length = 24 ∨
            rs.seed.length = 32) ∧ rs.name.length ≤ 16 ∧ l1.length = 16) := by
          intro hc
          have := (stream_isSome_iff enc rs.seed rs.name l1).mpr hc
          rw [h2] at this
          cases this
        have h2' : RandomSource.Stream enc rs.seed rs.name l2 = none := by
          cases hs2 : RandomSource.Stream enc rs.seed rs.name l2 with
          | none => rfl
          | some s2 =>
            have hc2 := (stream_isSome_iff enc rs.seed rs.name l2).mp
              (by rw [hs2]; rfl)
            exact absurd ⟨hc2.1, hc2.2.1, hl1⟩ hno
        have hf2 : assocFind rs.encodingCache (toKey l2) = none := by
          rw [hk]; exact h1
        rw [shuffle_miss_panic enc gen rs l2 hf2 h2']

/-- Witness for C8's amended statement: a cached 16-byte label of sevens and
the same label extended by one byte return the stored shuffle/matrix, and on
a fresh generator the extended label returns the permutation the 16-byte
first call produced. -/
theorem c8_label_collision_witness :
    ((RandomSource.Shuffle encTwo genVal rsCached2 lab7).value = some 7
      ∧ (RandomSource.Shuffle encTwo genVal rsCached2 (lab7 ++ [5])).value = some 7)
    ∧ ((RandomSource.Matrix encTwo genSize rsCached2 lab7 4).value = some 9
      ∧ (RandomSource.Matrix encTwo genSize rsCached2 (lab7 ++ [5]) 4).value = some 9)
    ∧ (RandomSource.Shuffle encTwo genVal
        (RandomSource.Shuffle encTwo genVal rsZero lab7).state (lab7 ++ [5])).value
      = (RandomSource.Shuffle encTwo genVal rsZero lab7).value :=
  ⟨(c8_label_collision ℕ ℕ encTwo genVal genSize rsCached2 lab7 (lab7 ++ [5])
      4 7 9).1 (by decide) (by decide),
   (c8_label_collision ℕ ℕ encTwo genVal genSize rsCached2 lab7 (lab7 ++ [5])
      4 7 9).2.1 (by decide) (by decide),
   (c8_label_collision ℕ ℕ encTwo genVal genSize rsZero lab7 (lab7 ++ [5])
      4 7 9).2.2 (by decide) (by decide)⟩

/-- Claim C9: a call to the permutation or matrix generator with a label
already in the corresponding cache returns the stored value unchanged,
performs no new stream derivation (zero draws), and leaves the generator's
state — both caches, name and seed — unchanged. -/
theorem c9_cache_hit (α β : Type) (enc : BlockCipher) (gen : (ℕ → ℕ) → α)
    (genM : (ℕ → ℕ) → ℕ → β) (rs : RandomSource α β) (label : List ℕ)
    (size : ℕ) (v : α) (w : β) :
    (assocFind rs.encodingCache (toKey label) = some v →
      RandomSource.Shuffle enc gen rs label = ⟨some v, rs, 0⟩)
    ∧ (assocFind rs.matrixCache (toKey label) = some w →
      RandomSource.Matrix enc genM rs label size = ⟨some w, rs, 0⟩) :=
  ⟨shuffle_hit enc gen rs label, matrix_hit enc genM rs label size⟩

/-- Witness for C9 on a generator whose caches hold values for `toKey [97]`. -/
theorem c9_cache_hit_witness :
    RandomSource.Shuffle encTwo genVal rsCached [97] = ⟨some 7, rsCached, 0⟩
    ∧ RandomSource.Matrix encTwo genSize rsCached [97] 4 = ⟨some 9, rsCached, 0⟩ :=
  ⟨(c9_cache_hit ℕ ℕ encTwo genVal genSize rsCached [97] 4 7 9).1 (by decide),
   (c9_cache_hit ℕ ℕ encTwo genVal genSize rsCached [97] 4 7 9).2 (by decide)⟩
